import Mathlib

/-!
Verification of the DuckDB codemirror-spec generation script
(`src/dialects/duckdb/spec_duckdb.py`).

The script introspects an embedded DuckDB catalog, filters keyword-like
names by a list of excluded prefixes (rendered as SQL `NOT LIKE '{kw}%'`
conditions), aggregates them into sorted, deduplicated, space-joined
strings, selects a curated dictionary of functions, and writes two JSON
documents.  The definitions below are a shallow embedding of that
pipeline: the SQL fragments are modelled by their DuckDB semantics
(string `LIKE` matching with `%`/`_` wildcards, `STRING_AGG(DISTINCT …
ORDER BY …)`, `MAX` over `LIST` values), and the Python parts
(`filter_keywords_query`, the polars filter, the dict build, the export
cell) are translated function by function.
-/

/-! ## DuckDB `LIKE` matching

`a LIKE p` in DuckDB is case-sensitive; in the pattern `%` matches any
(possibly empty) sequence of characters and `_` matches exactly one
character.  There is no default escape character. -/

/-- Helper for a leading `%` wildcard: `percentAux f s` is true when the
continuation `f` accepts some suffix of `s` (the `%` consumes the
complementary prefix). -/
def percentAux (f : List Char → Bool) : List Char → Bool
  | [] => f []
  | c :: s => f (c :: s) || percentAux f s

/-- DuckDB `LIKE` semantics: `likeMatch p s` is true when pattern `p`
matches the whole string `s`. -/
def likeMatch : List Char → List Char → Bool
  | [], s => s.isEmpty
  | c :: p, s =>
    if c = '%' then percentAux (fun t => likeMatch p t) s
    else
      match s with
      | [] => false
      | d :: s' => (c == '_' || c == d) && likeMatch p s'

theorem percentAux_cons (f : List Char → Bool) (c : Char) (s : List Char) :
    percentAux f (c :: s) = (f (c :: s) || percentAux f s) := rfl

theorem percentAux_here {f : List Char → Bool} {s : List Char}
    (h : f s = true) : percentAux f s = true := by
  cases s with
  | nil => exact h
  | cons c s => rw [percentAux_cons, h, Bool.true_or]

theorem likeMatch_cons (c : Char) (p s : List Char) :
    likeMatch (c :: p) s =
      if c = '%' then percentAux (fun t => likeMatch p t) s
      else
        match s with
        | [] => false
        | d :: s' => (c == '_' || c == d) && likeMatch p s' := rfl

/-- A bare `%` pattern matches every string. -/
theorem likeMatch_pct (s : List Char) : likeMatch ['%'] s = true := by
  induction s with
  | nil => rfl
  | cons c s ih =>
    have h2 : percentAux (fun t => likeMatch [] t) s = true := ih
    show percentAux (fun t => likeMatch [] t) (c :: s) = true
    rw [percentAux_cons, h2, Bool.or_true]

/-- Soundness of literal prefixes: if `kw` is literally a prefix of `s`
then the pattern `kw ++ "%"` matches `s`, whatever characters `kw`
contains. -/
theorem likeMatch_of_isPrefixOf :
    ∀ (kw s : List Char), kw.isPrefixOf s = true →
      likeMatch (kw ++ ['%']) s = true := by
  intro kw
  induction kw with
  | nil => intro s _; simpa using likeMatch_pct s
  | cons c kw ih =>
    intro s hpre
    cases s with
    | nil => simp [List.isPrefixOf] at hpre
    | cons d s =>
      simp only [List.isPrefixOf, Bool.and_eq_true, beq_iff_eq] at hpre
      obtain ⟨rfl, hpre⟩ := hpre
      rw [List.cons_append, likeMatch_cons]
      by_cases hc : c = '%'
      · subst hc
        have h2 : percentAux (fun t => likeMatch (kw ++ ['%']) t) s = true :=
          percentAux_here (ih s hpre)
        rw [if_pos rfl, percentAux_cons, h2, Bool.or_true]
      · rw [if_neg hc]
        show ((c == '_' || c == c) && likeMatch (kw ++ ['%']) s) = true
        simp [ih s hpre]

/-- For a wildcard-free `kw`, the pattern `kw ++ "%"` matches exactly
the strings of which `kw` is a literal prefix. -/
theorem likeMatch_eq_isPrefixOf :
    ∀ (kw s : List Char), (∀ ch ∈ kw, ch ≠ '%' ∧ ch ≠ '_') →
      likeMatch (kw ++ ['%']) s = kw.isPrefixOf s := by
  intro kw
  induction kw with
  | nil => intro s _; simp [likeMatch_pct s, List.isPrefixOf]
  | cons c kw ih =>
    intro s hwf
    have hc : c ≠ '%' ∧ c ≠ '_' := hwf c (List.mem_cons_self c kw)
    have hrest : ∀ ch ∈ kw, ch ≠ '%' ∧ ch ≠ '_' :=
      fun ch hm => hwf ch (List.mem_cons_of_mem c hm)
    cases s with
    | nil =>
      rw [List.cons_append, likeMatch_cons, if_neg hc.1]
      rfl
    | cons d s =>
      rw [List.cons_append, likeMatch_cons, if_neg hc.1]
      show ((c == '_' || c == d) && likeMatch (kw ++ ['%']) s) =
        List.isPrefixOf (c :: kw) (d :: s)
      rw [ih s hrest]
      have hund : (c == '_') = false := by simpa using hc.2
      show _ = (c == d && List.isPrefixOf kw s)
      rw [hund, Bool.false_or]

/-! ## `STRING_AGG(DISTINCT x, ' ' ORDER BY x)`

DuckDB deduplicates, sorts ascending and joins with the separator; over
an empty input the aggregate is `NULL`.  `sortDedup` produces the
sorted, duplicate-free list of values.  It is stated over any linear
order and used at `String` (DuckDB's default binary collation agrees
with codepoint-lexicographic order on strings). -/

/-- Insert a value into a strictly sorted list, keeping it sorted and
duplicate free. -/
def insertSorted {α : Type} [LinearOrder α] (x : α) : List α → List α
  | [] => [x]
  | y :: ys =>
    if x = y then y :: ys
    else if x < y then x :: y :: ys
    else y :: insertSorted x ys

/-- Sorted, deduplicated list of values, as produced by
`STRING_AGG(DISTINCT … ORDER BY …)` before joining. -/
def sortDedup {α : Type} [LinearOrder α] (l : List α) : List α :=
  l.foldr insertSorted []

theorem mem_insertSorted {α : Type} [LinearOrder α] (x a : α) :
    ∀ l : List α, a ∈ insertSorted x l ↔ a = x ∨ a ∈ l := by
  intro l
  induction l with
  | nil => simp [insertSorted]
  | cons y ys ih =>
    by_cases hxy : x = y
    · subst hxy
      simp only [insertSorted, if_pos rfl]
      constructor
      · intro h; exact Or.inr h
      · intro h; rcases h with rfl | h
        · exact List.mem_cons_self a ys
        · exact h
    · by_cases hlt : x < y
      · simp only [insertSorted, if_neg hxy, if_pos hlt, List.mem_cons]
      · simp only [insertSorted, if_neg hxy, if_neg hlt, List.mem_cons, ih]
        constructor
        · intro h; rcases h with rfl | h | h
          · exact Or.inr (Or.inl rfl)
          · exact Or.inl h
          · exact Or.inr (Or.inr h)
        · intro h; rcases h with h | rfl | h
          · exact Or.inr (Or.inl h)
          · exact Or.inl rfl
          · exact Or.inr (Or.inr h)

theorem pairwise_insertSorted {α : Type} [LinearOrder α] (x : α) :
    ∀ l : List α, List.Pairwise (· < ·) l →
      List.Pairwise (· < ·) (insertSorted x l) := by
  intro l
  induction l with
  | nil => intro _; simp [insertSorted]
  | cons y ys ih =>
    intro hp
    rw [List.pairwise_cons] at hp
    obtain ⟨hy, hys⟩ := hp
    by_cases hxy : x = y
    · subst hxy
      have he : insertSorted x (x :: ys) = x :: ys := by
        show (if x = x then x :: ys else _) = x :: ys
        rw [if_pos rfl]
      rw [he, List.pairwise_cons]
      exact ⟨hy, hys⟩
    · by_cases hlt : x < y
      · simp only [insertSorted, if_neg hxy, if_pos hlt, List.pairwise_cons]
        refine ⟨?_, hy, hys⟩
        intro b hb
        rcases List.mem_cons.mp hb with rfl | hb
        · exact hlt
        · exact lt_trans hlt (hy b hb)
      · have hyx : y < x := by
          rcases lt_trichotomy x y with h | h | h
          · exact absurd h hlt
          · exact absurd h hxy
          · exact h
        simp only [insertSorted, if_neg hxy, if_neg hlt, List.pairwise_cons]
        refine ⟨?_, ih hys⟩
        intro b hb
        rcases (mem_insertSorted x b ys).mp hb with rfl | hb
        · exact hyx
        · exact hy b hb

theorem mem_sortDedup {α : Type} [LinearOrder α] (a : α) :
    ∀ l : List α, a ∈ sortDedup l ↔ a ∈ l := by
  intro l
  induction l with
  | nil => simp [sortDedup]
  | cons x xs ih =>
    show a ∈ insertSorted x (sortDedup xs) ↔ _
    rw [mem_insertSorted, ih]
    simp

theorem pairwise_sortDedup {α : Type} [LinearOrder α] :
    ∀ l : List α, List.Pairwise (· < ·) (sortDedup l) := by
  intro l
  induction l with
  | nil => simp [sortDedup]
  | cons x xs ih => exact pairwise_insertSorted x _ ih

/-! ## `filter_keywords_query` (spec_duckdb.py lines 304-310)

The Python helper builds the SQL text
`"{column} NOT LIKE '{kw}%' AND … AND {column} NOT LIKE '{kw}%'"`
by joining one condition per excluded keyword with `" AND "`.  We build
the same character sequence (`squote` is the single-quote character,
`'%'` the SQL wildcard appended after each keyword). -/

/-- The single-quote character `'` used to delimit SQL string literals. -/
def squote : Char := Char.ofNat 39

/-- One condition `{column} NOT LIKE '{kw}%'` as a character sequence. -/
def condChars (column kw : List Char) : List Char :=
  column ++ (" NOT LIKE ").toList ++ [squote] ++ kw ++ ['%', squote]

/-- The conditions joined with `" AND "`, i.e. the Python
`" AND ".join(like_conditions)`: empty input yields the empty string,
otherwise the separator goes between consecutive conditions. -/
def clauseChars (column : List Char) : List (List Char) → List Char
  | [] => []
  | [kw] => condChars column kw
  | kw :: kws => condChars column kw ++ (" AND ").toList ++ clauseChars column kws

/-- `filter_keywords_query` from the script: the `WHERE`-clause text for
a column name and the list of excluded keywords. -/
def filter_keywords_query (column : String) (EXCLUDED_KEYWORDS : List String) : String :=
  String.mk (clauseChars column.toList (EXCLUDED_KEYWORDS.map String.toList))

/-! ## Parsing the generated clause back, per the SQL grammar

The generated text is interpolated into `WHERE {…}` inside the two
`mo.sql` queries, so DuckDB's parser decides what it means.  On the
grammar fragment the generator can emit, a valid clause is a nonempty
`" AND "`-separated sequence of `{column} NOT LIKE '<pattern>'`
conditions, where a pattern literal runs to the next single quote.
`parseWhere` recognises exactly that shape and returns the `LIKE`
patterns; anything else — in particular the empty clause produced by an
empty exclusion list — is a syntax error (`none`). -/

/-- Consume an expected literal character sequence. -/
def dropLit : List Char → List Char → Option (List Char)
  | [], s => some s
  | _ :: _, [] => none
  | c :: l, d :: s => if c = d then dropLit l s else none

/-- Consume a quoted SQL string literal body up to (and including) the
closing single quote, returning the body. -/
def takePat : List Char → Option (List Char × List Char)
  | [] => none
  | c :: s =>
    if c = squote then some ([], s)
    else (takePat s).map fun pr => (c :: pr.1, pr.2)

/-- Fuelled parser for the conjunction of `NOT LIKE` conditions. -/
def parseCondsAux (column : List Char) : Nat → List Char → Option (List (List Char))
  | 0, _ => none
  | fuel + 1, s =>
    match dropLit (column ++ (" NOT LIKE ").toList ++ [squote]) s with
    | none => none
    | some s1 =>
      match takePat s1 with
      | none => none
      | some (pat, rest) =>
        if rest.isEmpty then some [pat]
        else
          match dropLit ((" AND ").toList) rest with
          | none => none
          | some s2 => (parseCondsAux column fuel s2).map fun ps => pat :: ps

/-- Parse a `WHERE`-clause text into its list of `LIKE` patterns;
`none` models a DuckDB syntax error. -/
def parseWhere (column s : List Char) : Option (List (List Char)) :=
  parseCondsAux column (s.length + 1) s

/-- The `LIKE` patterns `kw ++ "%"` corresponding to an exclusion list. -/
def mkPats (exc : List String) : List (List Char) :=
  exc.map fun kw => kw.toList ++ ['%']

theorem dropLit_append (l : List Char) :
    ∀ s : List Char, dropLit l (l ++ s) = some s := by
  induction l with
  | nil => intro s; rfl
  | cons c l ih => intro s; simp [dropLit, ih]

theorem takePat_append (kw : List Char) (rest : List Char)
    (h : squote ∉ kw) : takePat (kw ++ squote :: rest) = some (kw, rest) := by
  induction kw with
  | nil => simp [takePat]
  | cons c kw ih =>
    have hc : c ≠ squote := fun he => h (he ▸ List.mem_cons_self c kw)
    have hrest : squote ∉ kw := fun hm => h (List.mem_cons_of_mem c hm)
    simp [takePat, hc, ih hrest]

theorem parseCondsAux_clause (column : List Char) :
    ∀ (kws : List (List Char)) (fuel : Nat), kws ≠ [] → kws.length ≤ fuel →
      (∀ kw ∈ kws, squote ∉ kw) →
      parseCondsAux column fuel (clauseChars column kws) =
        some (kws.map fun kw => kw ++ ['%']) := by
  intro kws
  induction kws with
  | nil => intro fuel h _ _; exact absurd rfl h
  | cons kw kws ih =>
    intro fuel _ hfuel hq
    have hkw : squote ∉ kw := hq kw (List.mem_cons_self kw kws)
    obtain ⟨fuel, rfl⟩ : ∃ f, fuel = f + 1 := by
      cases fuel with
      | zero => rw [List.length_cons] at hfuel; omega
      | succ f => exact ⟨f, rfl⟩
    have hpat : squote ∉ kw ++ ['%'] := by
      intro hm
      rcases List.mem_append.mp hm with hm | hm
      · exact hkw hm
      · have : squote = '%' := List.mem_singleton.mp hm
        simp [squote, Char.ofNat] at this
    cases kws with
    | nil =>
      show parseCondsAux column (fuel + 1) (condChars column kw) = some [kw ++ ['%']]
      have hshape : condChars column kw =
          (column ++ (" NOT LIKE ").toList ++ [squote]) ++
            ((kw ++ ['%']) ++ squote :: []) := by
        simp [condChars]
      rw [hshape]
      simp only [parseCondsAux, dropLit_append, takePat_append _ _ hpat]
      rfl
    | cons kw2 kws =>
      have hq2 : ∀ k ∈ kw2 :: kws, squote ∉ k :=
        fun k hm => hq k (List.mem_cons_of_mem kw hm)
      have hne2 : kw2 :: kws ≠ [] := by simp
      have hfuel2 : (kw2 :: kws).length ≤ fuel := by
        simp only [List.length_cons] at hfuel ⊢; omega
      have hclause_ne : clauseChars column (kw2 :: kws) ≠ [] := by
        cases kws with
        | nil => simp [clauseChars, condChars]
        | cons a b => simp [clauseChars, condChars]
      have hshape : clauseChars column (kw :: kw2 :: kws) =
          (column ++ (" NOT LIKE ").toList ++ [squote]) ++
            ((kw ++ ['%']) ++ squote ::
              ((" AND ").toList ++ clauseChars column (kw2 :: kws))) := by
        simp [clauseChars, condChars]
      rw [hshape]
      simp only [parseCondsAux, dropLit_append, takePat_append _ _ hpat]
      have hne_flat : ((" AND ").toList ++ clauseChars column (kw2 :: kws)).isEmpty = false := by
        simp
      rw [if_neg (by simp [hne_flat])]
      rw [ih fuel hne2 hfuel2 hq2]
      rfl

theorem clauseChars_length (column : List Char) :
    ∀ kws : List (List Char), kws.length ≤ (clauseChars column kws).length + 1 := by
  intro kws
  induction kws with
  | nil => simp
  | cons kw kws ih =>
    cases kws with
    | nil => simp [clauseChars]
    | cons kw2 kws2 =>
      have : clauseChars column (kw :: kw2 :: kws2) =
          condChars column kw ++ (" AND ").toList ++ clauseChars column (kw2 :: kws2) := rfl
      rw [this]
      have hsep : ((" AND ").toList).length = 5 := rfl
      simp only [List.length_cons, List.length_append] at ih ⊢
      omega

/-- Round trip: for a nonempty exclusion list whose keywords contain no
single quote, the clause built by `filter_keywords_query` parses back to
exactly the patterns `kw ++ "%"`. -/
theorem parseWhere_clause (column : List Char) (exc : List String)
    (hne : exc ≠ []) (hq : ∀ kw ∈ exc, squote ∉ kw.toList) :
    parseWhere column (clauseChars column (exc.map String.toList)) =
      some (mkPats exc) := by
  have hne' : exc.map String.toList ≠ [] := by
    intro h
    exact hne (List.map_eq_nil_iff.mp h)
  have hq' : ∀ kw ∈ exc.map String.toList, squote ∉ kw := by
    intro kw hm
    obtain ⟨w, hw, rfl⟩ := List.mem_map.mp hm
    exact hq w hw
  have hlen : (exc.map String.toList).length ≤
      (clauseChars column (exc.map String.toList)).length + 1 :=
    clauseChars_length column _
  have := parseCondsAux_clause column (exc.map String.toList)
    ((clauseChars column (exc.map String.toList)).length + 1) hne' hlen hq'
  rw [parseWhere, this, mkPats, List.map_map]
  rfl

/-! ## The `df` query (spec_duckdb.py lines 228-290)

`stg_keywords` is the `UNION ALL` of four catalog sources tagged with a
`keyword_group`; `all_keywords` aggregates the `keyword` column of the
rows passing the interpolated `WHERE` clause; `builtin_keywords`
aggregates the keyword and settings groups with no prefix filter;
`duckdb_types_str` aggregates `duckdb_types()` with no filter at all.
The single produced row carries `version()`, `today()` and the three
aggregate strings.  A `CatalogState` abstracts the contents of the four
catalog views (each a list of names, in scan order). -/

/-- The `EXCLUDED_KEYWORDS` cell of the script. -/
def EXCLUDED_KEYWORDS : List String :=
  ["__internal", "icu", "has_", "pg_", "allocator"]

/-- Contents of the four DuckDB catalog views used by the script. -/
structure CatalogState where
  duckdb_keywords : List String
  duckdb_settings : List String
  duckdb_functions : List String
  duckdb_types : List String
deriving DecidableEq

/-- The `stg_keywords` CTE: `(keyword_group, keyword)` rows from the
four sources, concatenated by `UNION ALL`. -/
def stgKeywords (c : CatalogState) : List (String × String) :=
  (c.duckdb_keywords.map fun k => ("duckdb_keywords", k)) ++
    (c.duckdb_settings.map fun k => ("duckdb_settings", k)) ++
    (c.duckdb_functions.map fun k => ("duckdb_functions", k)) ++
    (c.duckdb_types.map fun k => ("duckdb_types", k))

/-- `STRING_AGG(DISTINCT x, ' ' ORDER BY x)`: `NULL` over an empty
input, otherwise the sorted deduplicated space-joined string. -/
def aggStr (l : List String) : Option String :=
  match sortDedup l with
  | [] => none
  | xs => some (String.intercalate " " xs)

/-- A row passes the parsed `WHERE` clause when it fails every
`LIKE` pattern (the clause is the conjunction of `NOT LIKE`s). -/
def passesPats (pats : List (List Char)) (name : String) : Bool :=
  pats.all fun pat => !(likeMatch pat name.toList)

/-- The `keyword` column of the `stg_keywords` rows passing the
`WHERE` clause, in scan order (input of `all_keywords`). -/
def keptKeywords (pats : List (List Char)) (c : CatalogState) : List String :=
  ((stgKeywords c).filter fun r => passesPats pats r.2).map fun r => r.2

/-- The `keyword` column of all `stg_keywords` rows. -/
def allKeywordNames (c : CatalogState) : List String :=
  (stgKeywords c).map fun r => r.2

/-- The `keyword` column of the rows of the builtin groups
(`duckdb_keywords`, `duckdb_settings`) — note: no prefix filter. -/
def builtinKeywords (c : CatalogState) : List String :=
  ((stgKeywords c).filter fun r =>
    r.1 == "duckdb_keywords" || r.1 == "duckdb_settings").map fun r => r.2

/-- The single row produced by the `df` query. -/
structure DfRow where
  duckdb_version : String
  last_updated : String
  keywords : Option String
  builtin : Option String
  types : Option String
deriving DecidableEq

/-- The `df` row for a parsed `WHERE` clause, catalog state, engine
version and current date. -/
def dfRow (pats : List (List Char)) (c : CatalogState)
    (version today : String) : DfRow :=
  { duckdb_version := version
    last_updated := today
    keywords := aggStr (keptKeywords pats c)
    builtin := aggStr (builtinKeywords c)
    types := aggStr c.duckdb_types }

/-- Parse the `WHERE` clause interpolated into the `df` query from the
exclusion list (`filter_keywords_query("keyword", EXCLUDED_KEYWORDS)`). -/
def dfPats (exc : List String) : Option (List (List Char)) :=
  parseWhere ("keyword").toList ((filter_keywords_query "keyword" exc).toList)

/-- The `df` query: fails (no result) when the interpolated clause is
not valid SQL, otherwise produces the single aggregate row. -/
def dfQuery (exc : List String) (c : CatalogState)
    (version today : String) : Option DfRow :=
  (dfPats exc).map fun pats => dfRow pats c version today

/-- Round trip at the `df` level: a nonempty quote-free exclusion list
parses back to its `LIKE` patterns. -/
theorem dfPats_eq (exc : List String) (hne : exc ≠ [])
    (hq : ∀ kw ∈ exc, squote ∉ kw.toList) :
    dfPats exc = some (mkPats exc) := by
  have : (filter_keywords_query "keyword" exc).toList =
      clauseChars ("keyword").toList (exc.map String.toList) := rfl
  rw [dfPats, this]
  exact parseWhere_clause _ exc hne hq

/-! ## JSON documents and the exporter (lines 103-112, 325-363)

`write_to_file` drops the transient `builtin` column and serializes the
one-row dataframe with polars `DataFrame.write_json`, which (polars
1.x) emits a row-oriented document: a JSON array with one object per
row.  `save_to_json` dumps the function dictionary as a JSON object. -/

/-- JSON values (only the shapes this script can produce). -/
inductive Json where
  | null : Json
  | str : String → Json
  | obj : List (String × Json) → Json
  | arr : List Json → Json

/-- A nullable string column value as JSON. -/
def optStr : Option String → Json
  | none => Json.null
  | some s => Json.str s

/-- The columns of the `df` dataframe, in order, as (name, value). -/
def dfColumns (r : DfRow) : List (String × Json) :=
  [("duckdb_version", Json.str r.duckdb_version),
   ("last_updated", Json.str r.last_updated),
   ("keywords", optStr r.keywords),
   ("builtin", optStr r.builtin),
   ("types", optStr r.types)]

/-- `write_to_file`: `df.select(pl.exclude("builtin")).write_json(…)` —
drop the `builtin` column, emit the row-oriented JSON document (an
array with one object for the single row). -/
def write_to_file (r : DfRow) : Json :=
  Json.arr [Json.obj ((dfColumns r).filter fun f => f.1 != "builtin")]

/-- Discriminator: is a JSON document a (flat) object? -/
def Json.isObj : Json → Bool
  | Json.obj _ => true
  | _ => false

/-- Remove a named field from a document's objects (top-level object,
or the row objects of a row-oriented array).  Used to compare outputs
"excluding the timestamp field". -/
def eraseFieldTop : Json → String → Json
  | Json.obj fs, n => Json.obj (fs.filter fun f => f.1 != n)
  | Json.arr es, n =>
    Json.arr (es.map fun e =>
      match e with
      | Json.obj fs => Json.obj (fs.filter fun f => f.1 != n)
      | x => x)
  | j, _ => j

set_option maxRecDepth 8000

/-! ## The `functions` query's `example` aggregation (lines 135-151)

Each group of overload rows (one group per `function_name`) contributes
`MAX(examples)[1] AS example`: DuckDB's `MAX` over `LIST` values picks
the list-lexicographically greatest `examples` list among the group's
rows, and `[1]` (one-based indexing) takes its first element, `NULL`
when out of range.  The group is given as the list of the overloads'
`examples` lists, in scan order. -/

/-- DuckDB comparison on `LIST` values: element-wise lexicographic,
a strict prefix is smaller. -/
def listLt : List String → List String → Bool
  | [], [] => false
  | [], _ :: _ => true
  | _ :: _, [] => false
  | a :: as, b :: bs =>
    if a < b then true else if b < a then false else listLt as bs

/-- `MAX(examples)` over the group's rows: `NULL` for an empty group,
otherwise the greatest list. -/
def maxExamples : List (List String) → Option (List String)
  | [] => none
  | g :: gs => some (gs.foldl (fun acc l => if listLt acc l then l else acc) g)

/-- `MAX(examples)[1]`: the first element of the greatest `examples`
list, `NULL` when the group is empty or that list is. -/
def aggExample (gs : List (List String)) : Option String :=
  (maxExamples gs).bind List.head?

/-- The value the spec's words describe: "the first example string of
the first overload group".  Stated only to compare with `aggExample`. -/
def specFirstExample (gs : List (List String)) : Option String :=
  gs.head?.bind List.head?

theorem listLt_irrefl : ∀ a : List String, listLt a a = false := by
  intro a
  induction a with
  | nil => rfl
  | cons x xs ih => simp [listLt, ih]

theorem listLt_cons (x y : String) (xs ys : List String) :
    listLt (x :: xs) (y :: ys) =
      if x < y then true else if y < x then false else listLt xs ys := rfl

theorem listLt_trans :
    ∀ a b c : List String, listLt a b = true → listLt b c = true →
      listLt a c = true := by
  intro a
  induction a with
  | nil =>
    intro b c hab hbc
    cases b with
    | nil => simp [listLt] at hab
    | cons y ys =>
      cases c with
      | nil => simp [listLt] at hbc
      | cons z zs => simp [listLt]
  | cons x xs ih =>
    intro b c hab hbc
    cases b with
    | nil => simp [listLt] at hab
    | cons y ys =>
      cases c with
      | nil => simp [listLt] at hbc
      | cons z zs =>
        rw [listLt_cons] at hab hbc ⊢
        by_cases hxy : x < y
        · by_cases hyz : y < z
          · rw [if_pos (lt_trans hxy hyz)]
          · rw [if_neg hyz] at hbc
            by_cases hzy : z < y
            · rw [if_pos hzy] at hbc; exact absurd hbc (by simp)
            · have hyz2 : y = z := le_antisymm (not_lt.mp hzy) (not_lt.mp hyz)
              rw [if_pos (hyz2 ▸ hxy)]
        · rw [if_neg hxy] at hab
          by_cases hyx : y < x
          · rw [if_pos hyx] at hab; exact absurd hab (by simp)
          · have hxy2 : x = y := le_antisymm (not_lt.mp hyx) (not_lt.mp hxy)
            subst hxy2
            rw [if_neg (lt_irrefl x)] at hab
            by_cases hxz : x < z
            · rw [if_pos hxz]
            · rw [if_neg hxz] at hbc ⊢
              by_cases hzx : z < x
              · rw [if_pos hzx] at hbc; exact absurd hbc (by simp)
              · rw [if_neg hzx] at hbc ⊢
                exact ih ys zs hab hbc

theorem listLt_total :
    ∀ a b : List String, listLt a b = true ∨ listLt b a = true ∨ a = b := by
  intro a
  induction a with
  | nil =>
    intro b
    cases b with
    | nil => exact Or.inr (Or.inr rfl)
    | cons y ys => exact Or.inl (by simp [listLt])
  | cons x xs ih =>
    intro b
    cases b with
    | nil => exact Or.inr (Or.inl (by simp [listLt]))
    | cons y ys =>
      rcases lt_trichotomy x y with h | h | h
      · exact Or.inl (by rw [listLt_cons, if_pos h])
      · subst h
        rcases ih ys with h2 | h2 | h2
        · exact Or.inl (by rw [listLt_cons, if_neg (lt_irrefl x), if_neg (lt_irrefl x)]; exact h2)
        · exact Or.inr (Or.inl (by rw [listLt_cons, if_neg (lt_irrefl x), if_neg (lt_irrefl x)]; exact h2))
        · exact Or.inr (Or.inr (by rw [h2]))
      · exact Or.inr (Or.inl (by rw [listLt_cons, if_pos h]))

theorem foldMax_mem :
    ∀ (gs : List (List String)) (g : List String),
      gs.foldl (fun acc l => if listLt acc l then l else acc) g ∈ g :: gs := by
  intro gs
  induction gs with
  | nil => intro g; exact List.mem_cons_self g []
  | cons l gs ih =>
    intro g
    show List.foldl _ (if listLt g l then l else g) gs ∈ _
    by_cases h : listLt g l = true
    · rw [if_pos h]
      rcases List.mem_cons.mp (ih l) with h2 | h2
      · rw [h2]; exact List.mem_cons_of_mem g (List.mem_cons_self l gs)
      · exact List.mem_cons_of_mem g (List.mem_cons_of_mem l h2)
    · rw [if_neg h]
      rcases List.mem_cons.mp (ih g) with h2 | h2
      · rw [h2]; exact List.mem_cons_self g (l :: gs)
      · exact List.mem_cons_of_mem g (List.mem_cons_of_mem l h2)

theorem foldMax_not_lt :
    ∀ (gs : List (List String)) (g : List String), ∀ x ∈ g :: gs,
      listLt (gs.foldl (fun acc l => if listLt acc l then l else acc) g) x = false := by
  intro gs
  induction gs with
  | nil =>
    intro g x hx
    rcases List.mem_cons.mp hx with heq | hx
    · rw [heq]; exact listLt_irrefl g
    · simp at hx
  | cons l gs ih =>
    intro g x hx
    show listLt (List.foldl _ (if listLt g l then l else g) gs) x = false
    by_cases hgl : listLt g l = true
    · rw [if_pos hgl]
      have hMl : listLt (List.foldl (fun acc l => if listLt acc l then l else acc) l gs) l = false :=
        ih l l (List.mem_cons_self l gs)
      rcases List.mem_cons.mp hx with heq | hx
      · -- x = g; the running max dominates l and g < l
        rw [heq]
        cases hMg : listLt (List.foldl (fun acc l => if listLt acc l then l else acc) l gs) g with
        | false => rfl
        | true =>
          rw [listLt_trans _ _ _ hMg hgl] at hMl
          exact Bool.noConfusion hMl
      · exact ih l x hx
    · rw [if_neg hgl]
      have hgl2 : listLt g l = false := by
        cases hb : listLt g l
        · rfl
        · exact absurd hb hgl
      have hMg : listLt (List.foldl (fun acc l => if listLt acc l then l else acc) g gs) g = false :=
        ih g g (List.mem_cons_self g gs)
      rcases List.mem_cons.mp hx with heq | hx
      · rw [heq]; exact hMg
      · rcases List.mem_cons.mp hx with heq | hx
        · -- x = l; the running max dominates g and not (g < l)
          rw [heq]
          cases hMl : listLt (List.foldl (fun acc l => if listLt acc l then l else acc) g gs) l with
          | false => rfl
          | true =>
            rcases listLt_total l g with h3 | h3 | h3
            · rw [listLt_trans _ _ _ hMl h3] at hMg
              exact Bool.noConfusion hMg
            · rw [h3] at hgl2; exact Bool.noConfusion hgl2
            · rw [h3] at hMl; rw [hMl] at hMg
              exact Bool.noConfusion hMg
        · exact ih g x (List.mem_cons_of_mem g hx)

/-! ## The function dictionary cell (lines 325-363)

`filtered_fn = functions.select(["function_name", "description",
"example"])` keeps the three columns of the per-name aggregated rows;
the polars filter keeps rows whose name starts with one of the curated
prefixes (`str.starts_with` is a literal, case-sensitive prefix test)
AND whose `description != ""` — a null description propagates null,
which the filter drops.  The loop then builds a Python dict
`{name: {"description": …, "example": …}}` (insertion order, assignment
overwrites in place). -/

/-- One aggregated row of the `functions` query, restricted to the
columns used by the dictionary cell; `description` and `example` are
nullable. -/
structure FnRow where
  function_name : String
  description : Option String
  example? : Option String
deriving DecidableEq

/-- The curated `included_functions` allow-list of name prefixes. -/
def included_functions : List String :=
  ["array", "count", "struct", "concat", "cast", "combine", "contains",
   "date", "day", "histogram", "generate_series", "json", "string",
   "substring", "to_", "trim"]

/-- Polars `pl.col("description") != ""`: true only on a non-null,
non-empty description (a null comparison yields null, which the filter
treats as false). -/
def descNonEmpty : Option String → Bool
  | none => false
  | some d => d != ""

/-- The conjunction of the two filter predicates applied to a row. -/
def keepRow (r : FnRow) : Bool :=
  (included_functions.any fun p => p.toList.isPrefixOf r.function_name.toList) &&
    descNonEmpty r.description

/-- Python dict assignment `d[k] = v`: overwrite in place when the key
is present, else append. -/
def dictInsert (d : List (String × (Option String × Option String)))
    (k : String) (v : Option String × Option String) :
    List (String × (Option String × Option String)) :=
  if d.any fun q => q.1 == k then
    d.map fun q => if q.1 == k then (k, v) else q
  else d ++ [(k, v)]

/-- The `fn_dict` loop: filter, then insert `{description, example}`
per retained row in order. -/
def fn_dict (rows : List FnRow) : List (String × (Option String × Option String)) :=
  (rows.filter keepRow).foldl
    (fun d r => dictInsert d r.function_name (r.description, r.example?)) []

/-- `save_to_json` applied to the dictionary: the functions JSON
document, an object mapping each name to `{description, example}`. -/
def fnDictJson (d : List (String × (Option String × Option String))) : Json :=
  Json.obj (d.map fun kv =>
    (kv.1, Json.obj [("description", optStr kv.2.1), ("example", optStr kv.2.2)]))

theorem dictInsert_fresh (d : List (String × (Option String × Option String)))
    (k : String) (v : Option String × Option String)
    (h : ∀ q ∈ d, q.1 ≠ k) : dictInsert d k v = d ++ [(k, v)] := by
  have hany : (d.any fun q => q.1 == k) = false := by
    rw [List.any_eq_false]
    intro q hq
    simpa using h q hq
  rw [dictInsert, hany]
  simp

theorem fn_dict_foldl_fresh :
    ∀ (rows : List FnRow) (d : List (String × (Option String × Option String))),
      (∀ r ∈ rows, ∀ q ∈ d, q.1 ≠ r.function_name) →
      (rows.map fun r => r.function_name).Nodup →
      rows.foldl (fun d r => dictInsert d r.function_name (r.description, r.example?)) d =
        d ++ rows.map fun r => (r.function_name, (r.description, r.example?)) := by
  intro rows
  induction rows with
  | nil => intro d _ _; simp
  | cons r rows ih =>
    intro d hfresh hnd
    rw [List.map_cons, List.nodup_cons] at hnd
    have h1 : dictInsert d r.function_name (r.description, r.example?) =
        d ++ [(r.function_name, (r.description, r.example?))] :=
      dictInsert_fresh d _ _ fun q hq =>
        hfresh r (List.mem_cons_self r rows) q hq
    show List.foldl _ (dictInsert d r.function_name (r.description, r.example?)) rows = _
    rw [h1, ih (d ++ [(r.function_name, (r.description, r.example?))]) ?_ hnd.2]
    · simp
    · intro r2 hr2 q hq
      rcases List.mem_append.mp hq with hq | hq
      · exact hfresh r2 (List.mem_cons_of_mem r hr2) q hq
      · have : q = (r.function_name, (r.description, r.example?)) := List.mem_singleton.mp hq
        rw [this]
        intro hcon
        have hcon2 : r.function_name = r2.function_name := hcon
        exact hnd.1 (hcon2 ▸ List.mem_map_of_mem (fun r => r.function_name) hr2)

theorem lookup_eq_none_of_not_mem (k : String) :
    ∀ l : List (String × (Option String × Option String)),
      (∀ q ∈ l, q.1 ≠ k) → List.lookup k l = none := by
  intro l
  induction l with
  | nil => intro _; rfl
  | cons q l ih =>
    intro h
    have hq : q.1 ≠ k := h q (List.mem_cons_self q l)
    have : (k == q.1) = false := by
      simpa using fun hcon => hq hcon.symm
    obtain ⟨a, b⟩ := q
    show List.lookup k ((a, b) :: l) = none
    rw [List.lookup_cons]
    simp only at this
    rw [this]
    exact ih fun p hp => h p (List.mem_cons_of_mem _ hp)

theorem fn_dict_eq (rows : List FnRow)
    (hnd : (rows.map fun q => q.function_name).Nodup) :
    fn_dict rows = (rows.filter keepRow).map fun q =>
      (q.function_name, (q.description, q.example?)) := by
  rw [fn_dict]
  have hsub : (rows.filter keepRow).Sublist rows := List.filter_sublist rows
  have hnd2 : ((rows.filter keepRow).map fun q => q.function_name).Nodup :=
    List.Nodup.sublist (List.Sublist.map _ hsub) hnd
  have := fn_dict_foldl_fresh (rows.filter keepRow) []
    (by intro r hr q hq; simp at hq) hnd2
  rw [this]
  rfl

theorem lookup_map_filter :
    ∀ rows : List FnRow, (rows.map fun q => q.function_name).Nodup →
      ∀ r ∈ rows,
        List.lookup r.function_name ((rows.filter keepRow).map fun q =>
          (q.function_name, (q.description, q.example?))) =
          if keepRow r then some (r.description, r.example?) else none := by
  intro rows
  induction rows with
  | nil => intro _ r hmem; cases hmem
  | cons x rows ih =>
    intro hnd r hmem
    rw [List.map_cons, List.nodup_cons] at hnd
    rcases List.mem_cons.mp hmem with heq | hmem2
    · subst heq
      by_cases hk : keepRow r = true
      · rw [List.filter_cons_of_pos hk, List.map_cons, List.lookup_cons]
        simp only [beq_self_eq_true, if_pos rfl, if_pos hk]
      · have hk2 : keepRow r = false := by
          cases hb : keepRow r
          · rfl
          · exact absurd hb hk
        rw [List.filter_cons_of_neg (by rw [hk2]; exact Bool.noConfusion), hk2]
        simp only [if_neg Bool.false_ne_true]
        apply lookup_eq_none_of_not_mem
        intro q hq
        obtain ⟨r2, hr2, rfl⟩ := List.mem_map.mp hq
        intro hcon
        have hcon2 : r2.function_name = r.function_name := hcon
        exact hnd.1 (hcon2 ▸
          List.mem_map_of_mem (fun q => q.function_name) (List.mem_of_mem_filter hr2))
    · have hne : r.function_name ≠ x.function_name := by
        intro h
        exact hnd.1 (h ▸ List.mem_map_of_mem (fun q => q.function_name) hmem2)
      have hbeq : (r.function_name == x.function_name) = false := by
        simpa using hne
      by_cases hk : keepRow x = true
      · rw [List.filter_cons_of_pos hk, List.map_cons, List.lookup_cons, hbeq]
        simp only [if_neg Bool.false_ne_true]
        exact ih hnd.2 r hmem2
      · rw [List.filter_cons_of_neg (by
          cases hb : keepRow x
          · exact Bool.noConfusion
          · exact absurd hb hk)]
        exact ih hnd.2 r hmem2

/-! ## The export cell (lines 74-100) and the filesystem

The cell chooses between script mode (`write_to_file(df, savepath)` and
`save_to_json(fn_dict, f"{savepath}/functions.json")`, with no
directory creation) and interactive mode (only when the submitted form
value is neither `None` nor blank after `.strip()`: `os.makedirs` when
the path does not exist, then the two writes under
`{savepath}/keywords.json` and `{savepath}/functions.json`).  A
filesystem state records which paths exist and the document content of
each file; a write replaces the file's content wholesale (`open(…,
"w")` truncates, `write_json` likewise rewrites the file). -/

inductive Mode where
  | script : Mode
  | interactive : Mode

/-- A filesystem operation issued by the export cell. -/
inductive FsOp where
  | makedirs : String → FsOp
  | write : String → Json → FsOp

/-- Observable filesystem state: `ex` is `os.path.exists`, `files` the
document content of each file path. -/
structure FsState where
  ex : String → Bool
  files : String → Option Json

/-- Python `str.strip()` on the relevant inputs: drop leading and
trailing whitespace. -/
def strip (s : String) : String :=
  String.mk (((s.toList.dropWhile Char.isWhitespace).reverse.dropWhile
    Char.isWhitespace).reverse)

/-- The export cell: the sequence of filesystem operations it issues,
given the mode, the `--savepath` argument, the form value, the two
documents to write, and the current filesystem (consulted by
`os.path.exists`). -/
def exportCell (mode : Mode) (argsSavepath : String) (formValue : Option String)
    (kwDoc fnDoc : Json) (fs : FsState) : List FsOp :=
  match mode with
  | Mode.script =>
    [FsOp.write argsSavepath kwDoc,
     FsOp.write (argsSavepath ++ "/functions.json") fnDoc]
  | Mode.interactive =>
    match formValue with
    | none => []
    | some savepath =>
      if strip savepath = "" then []
      else
        (if fs.ex savepath then [] else [FsOp.makedirs savepath]) ++
          [FsOp.write (savepath ++ "/keywords.json") kwDoc,
           FsOp.write (savepath ++ "/functions.json") fnDoc]

/-- Effect of one operation on the filesystem. -/
def applyOp (fs : FsState) : FsOp → FsState
  | FsOp.makedirs d =>
    { ex := fun q => if q = d then true else fs.ex q
      files := fs.files }
  | FsOp.write f c =>
    { ex := fun q => if q = f then true else fs.ex q
      files := fun q => if q = f then some c else fs.files q }

/-- Effect of a sequence of operations. -/
def applyOps (ops : List FsOp) (fs : FsState) : FsState :=
  ops.foldl applyOp fs

/-- One script-mode run end to end: evaluate the `df` query (failing if
the interpolated clause is invalid), build the two documents and apply
the export cell's writes to the filesystem. -/
def runScript (exc : List String) (c : CatalogState) (fnRows : List FnRow)
    (version today savepath : String) (fs : FsState) : Option FsState :=
  (dfQuery exc c version today).map fun r =>
    applyOps
      (exportCell Mode.script savepath none (write_to_file r)
        (fnDictJson (fn_dict fnRows)) fs)
      fs

/-! ## Supporting lemmas for the claims -/

theorem mem_keptKeywords (pats : List (List Char)) (c : CatalogState) (n : String) :
    n ∈ keptKeywords pats c ↔
      n ∈ allKeywordNames c ∧ passesPats pats n = true := by
  constructor
  · intro h
    obtain ⟨r, hr, rfl⟩ := List.mem_map.mp h
    have hr2 := List.mem_filter.mp hr
    exact ⟨List.mem_map_of_mem _ hr2.1, hr2.2⟩
  · intro h
    obtain ⟨h1, h2⟩ := h
    obtain ⟨r, hr, rfl⟩ := List.mem_map.mp h1
    exact List.mem_map_of_mem _ (List.mem_filter.mpr ⟨hr, h2⟩)

theorem passesPats_mkPats (exc : List String) (n : String) :
    passesPats (mkPats exc) n = true ↔
      ∀ kw ∈ exc, likeMatch (kw.toList ++ ['%']) n.toList = false := by
  rw [passesPats, List.all_eq_true]
  constructor
  · intro h kw hkw
    have := h (kw.toList ++ ['%'])
      (List.mem_map_of_mem (fun kw => kw.toList ++ ['%']) hkw)
    simpa using this
  · intro h pat hpat
    obtain ⟨kw, hkw, rfl⟩ := List.mem_map.mp hpat
    simpa using h kw hkw

theorem ne_append_of_ne_empty (s t : String) (h : t ≠ "") : s ≠ s ++ t := by
  intro hcon
  apply h
  have hd : s.data = s.data ++ t.data := congrArg String.data hcon
  have hlen := congrArg List.length hd
  rw [List.length_append] at hlen
  have : t.data = [] := List.eq_nil_of_length_eq_zero (by omega)
  cases t with
  | mk d =>
    simp only at this
    rw [this]

/-! ## Claims -/

/-- Claim C1, counterexample.  The claim asserts that the filtered
`all` output keeps exactly the names that do not start with any
excluded prefix under a literal prefix match.  With the script's own
`EXCLUDED_KEYWORDS`, the catalog name `pgx` starts with none of the
excluded prefixes literally, yet the query's `keywords` aggregate drops
it (and so is `NULL`), because the generated `NOT LIKE 'pg_%'`
condition treats `_` as a one-character wildcard. -/
theorem c1_literal_prefix_cex :
    dfQuery EXCLUDED_KEYWORDS ⟨["pgx"], [], [], []⟩ "v" "d" =
      some { duckdb_version := "v", last_updated := "d",
             keywords := none, builtin := some "pgx", types := none } ∧
    (EXCLUDED_KEYWORDS.all fun kw => !(kw.toList.isPrefixOf ("pgx").toList)) = true :=
  ⟨by decide, by decide⟩

/-- Claim C1, amended: the generated filter has `LIKE`-pattern
semantics, where `_` and `%` in a prefix are wildcards.  For every
exclusion list that is nonempty and whose prefixes contain no wildcard
or quote characters, the filtered `all` keyword list contains exactly
the catalog names that do not literally start with any excluded prefix
(case-sensitive, start-anchored). -/
theorem c1_filter_amended (exc : List String) (c : CatalogState)
    (hne : exc ≠ [])
    (hwf : ∀ kw ∈ exc, ∀ ch ∈ kw.toList, ch ≠ '%' ∧ ch ≠ '_' ∧ ch ≠ squote) :
    dfPats exc = some (mkPats exc) ∧
      ∀ n : String, n ∈ sortDedup (keptKeywords (mkPats exc) c) ↔
        n ∈ allKeywordNames c ∧
          ∀ kw ∈ exc, kw.toList.isPrefixOf n.toList = false := by
  have hq : ∀ kw ∈ exc, squote ∉ kw.toList :=
    fun kw hkw hm => ((hwf kw hkw squote hm).2.2) rfl
  refine ⟨dfPats_eq exc hne hq, ?_⟩
  intro n
  rw [mem_sortDedup, mem_keptKeywords, passesPats_mkPats]
  constructor
  · intro h
    refine ⟨h.1, fun kw hkw => ?_⟩
    have h2 := h.2 kw hkw
    rw [likeMatch_eq_isPrefixOf kw.toList n.toList
      (fun ch hm => ⟨(hwf kw hkw ch hm).1, (hwf kw hkw ch hm).2.1⟩)] at h2
    exact h2
  · intro h
    refine ⟨h.1, fun kw hkw => ?_⟩
    rw [likeMatch_eq_isPrefixOf kw.toList n.toList
      (fun ch hm => ⟨(hwf kw hkw ch hm).1, (hwf kw hkw ch hm).2.1⟩)]
    exact h.2 kw hkw

/-- Claim C1 witness: the amended theorem applied to the exclusion list
`["pg"]` and a catalog containing `select` and `pgx`. -/
theorem c1_filter_amended_witness :
    ((["pg"] : List String) ≠ [] ∧
      ∀ kw ∈ (["pg"] : List String), ∀ ch ∈ kw.toList,
        ch ≠ '%' ∧ ch ≠ '_' ∧ ch ≠ squote) ∧
    (dfPats ["pg"] = some (mkPats ["pg"]) ∧
      ∀ n : String,
        n ∈ sortDedup (keptKeywords (mkPats ["pg"]) ⟨["select", "pgx"], [], [], []⟩) ↔
          n ∈ allKeywordNames ⟨["select", "pgx"], [], [], []⟩ ∧
            ∀ kw ∈ (["pg"] : List String), kw.toList.isPrefixOf n.toList = false) :=
  ⟨⟨by decide, by decide⟩,
    c1_filter_amended ["pg"] ⟨["select", "pgx"], [], [], []⟩ (by decide) (by decide)⟩

/-- Claim C2, counterexample.  With an empty exclusion list the
generated `WHERE` clause is the empty string, so the `df` query is
malformed SQL and produces no row at all — not the identity filter:
the unfiltered aggregate over the same catalog would be `"select"`. -/
theorem c2_identity_filter_cex :
    filter_keywords_query "keyword" [] = "" ∧
    dfQuery [] ⟨["select"], [], [], []⟩ "v" "d" = none ∧
    aggStr (allKeywordNames ⟨["select"], [], [], []⟩) = some "select" :=
  ⟨rfl, rfl, rfl⟩

/-- Claim C2, amended: an empty exclusion list makes
`filter_keywords_query` return the empty string, which interpolated
after `WHERE` is a SQL syntax error; for every catalog state the query
then fails instead of acting as the identity filter. -/
theorem c2_empty_exclusion_amended (c : CatalogState) (v t : String) :
    filter_keywords_query "keyword" [] = "" ∧ dfQuery [] c v t = none :=
  ⟨rfl, rfl⟩

/-- Claim C3: an aggregated function record appears in the exported
dictionary exactly when its name starts with one of the curated
prefixes and its description is non-null and non-empty, and the entry
stored under its name is exactly its `{description, example}` pair
(names are unique after the `GROUP BY`, hence the `Nodup` premise). -/
theorem c3_fn_dict_membership (rows : List FnRow) (r : FnRow)
    (hmem : r ∈ rows)
    (hnd : (rows.map fun q => q.function_name).Nodup) :
    List.lookup r.function_name (fn_dict rows) =
      if keepRow r then some (r.description, r.example?) else none := by
  rw [fn_dict_eq rows hnd]
  exact lookup_map_filter rows hnd r hmem

/-- Claim C3 witness: a one-row input with name `json_extract` and a
non-empty description. -/
theorem c3_fn_dict_membership_witness :
    (FnRow.mk "json_extract" (some "Extracts") (some "jx") ∈
        [FnRow.mk "json_extract" (some "Extracts") (some "jx")] ∧
      (([FnRow.mk "json_extract" (some "Extracts") (some "jx")].map
        fun q => q.function_name)).Nodup) ∧
    List.lookup "json_extract"
        (fn_dict [FnRow.mk "json_extract" (some "Extracts") (some "jx")]) =
      (if keepRow (FnRow.mk "json_extract" (some "Extracts") (some "jx"))
       then some (some "Extracts", some "jx") else none) :=
  ⟨⟨by decide, by decide⟩,
    c3_fn_dict_membership [FnRow.mk "json_extract" (some "Extracts") (some "jx")]
      (FnRow.mk "json_extract" (some "Extracts") (some "jx"))
      (by decide) (by decide)⟩

/-- Claim C4, counterexample.  The `duckdb_types_str` aggregate has no
`WHERE` filter: with exclusion list `["B"]` and a catalog whose only
type is `BIGINT`, the exported `types` field contains `BIGINT`, which
starts with the excluded prefix `B`, and `write_to_file` carries it
into the output document. -/
theorem c4_types_unfiltered_cex :
    dfQuery ["B"] ⟨[], [], [], ["BIGINT"]⟩ "v" "d" =
      some { duckdb_version := "v", last_updated := "d",
             keywords := none, builtin := none, types := some "BIGINT" } ∧
    ("B").toList.isPrefixOf ("BIGINT").toList = true ∧
    write_to_file { duckdb_version := "v", last_updated := "d",
                    keywords := none, builtin := none, types := some "BIGINT" } =
      Json.arr [Json.obj
        [("duckdb_version", Json.str "v"), ("last_updated", Json.str "d"),
         ("keywords", Json.null), ("types", Json.str "BIGINT")]] :=
  ⟨by decide, by decide, rfl⟩

/-- Claim C4, amended: the exclusion filter protects only the
`keywords` aggregate — no name in it literally starts with an excluded
prefix — while the exported `types` field is aggregated from
`duckdb_types()` with no exclusion filter at all. -/
theorem c4_no_excluded_in_keywords_amended (exc : List String) (c : CatalogState)
    (hne : exc ≠ []) (hq : ∀ kw ∈ exc, squote ∉ kw.toList) :
    dfPats exc = some (mkPats exc) ∧
      (∀ n ∈ sortDedup (keptKeywords (mkPats exc) c),
        ∀ kw ∈ exc, kw.toList.isPrefixOf n.toList = false) ∧
      ∀ v t : String, (dfRow (mkPats exc) c v t).types = aggStr c.duckdb_types := by
  refine ⟨dfPats_eq exc hne hq, ?_, fun v t => rfl⟩
  intro n hn kw hkw
  rw [mem_sortDedup, mem_keptKeywords, passesPats_mkPats] at hn
  have h2 := hn.2 kw hkw
  cases hb : kw.toList.isPrefixOf n.toList
  · rfl
  · rw [likeMatch_of_isPrefixOf kw.toList n.toList hb] at h2
    exact Bool.noConfusion h2

/-- Claim C4 witness: the amended theorem applied to exclusion list
`["B"]` and the `BIGINT` catalog of the counterexample. -/
theorem c4_no_excluded_in_keywords_amended_witness :
    ((["B"] : List String) ≠ [] ∧
      ∀ kw ∈ (["B"] : List String), squote ∉ kw.toList) ∧
    (dfPats ["B"] = some (mkPats ["B"]) ∧
      (∀ n ∈ sortDedup (keptKeywords (mkPats ["B"]) ⟨[], [], [], ["BIGINT"]⟩),
        ∀ kw ∈ (["B"] : List String), kw.toList.isPrefixOf n.toList = false) ∧
      ∀ v t : String,
        (dfRow (mkPats ["B"]) ⟨[], [], [], ["BIGINT"]⟩ v t).types =
          aggStr (CatalogState.mk [] [] [] ["BIGINT"]).duckdb_types) :=
  ⟨⟨by decide, by decide⟩,
    c4_no_excluded_in_keywords_amended ["B"] ⟨[], [], [], ["BIGINT"]⟩
      (by decide) (by decide)⟩

/-- Claim C5, counterexample.  In script mode the export cell writes
both files without ever creating a directory, even when the
destination does not exist: its operation trace contains only the two
writes and no `makedirs`. -/
theorem c5_script_no_makedirs_cex :
    (FsState.mk (fun _ => false) (fun _ => none)).ex "out" = false ∧
    exportCell Mode.script "out" none Json.null Json.null
        (FsState.mk (fun _ => false) (fun _ => none)) =
      [FsOp.write "out" Json.null, FsOp.write ("out" ++ "/functions.json") Json.null] :=
  ⟨rfl, rfl⟩

/-- Claim C5, amended: only the interactive path creates the
destination directory — when the submitted folder is non-blank and
absent, `makedirs` is issued first, before the two writes — while the
script-mode path always writes without creating any directory. -/
theorem c5_makedirs_amended (a savepath : String) (kw fn : Json) (fs : FsState)
    (hne : strip savepath ≠ "") (habs : fs.ex savepath = false) :
    exportCell Mode.interactive a (some savepath) kw fn fs =
      [FsOp.makedirs savepath,
       FsOp.write (savepath ++ "/keywords.json") kw,
       FsOp.write (savepath ++ "/functions.json") fn] ∧
    ∀ (a2 : String) (fv : Option String) (kw2 fn2 : Json) (fs2 : FsState),
      exportCell Mode.script a2 fv kw2 fn2 fs2 =
        [FsOp.write a2 kw2, FsOp.write (a2 ++ "/functions.json") fn2] := by
  constructor
  · show (if strip savepath = "" then [] else _) = _
    rw [if_neg hne, habs]
    rfl
  · intro a2 fv kw2 fn2 fs2
    rfl

/-- Claim C5 witness: the amended theorem applied to the folder
`duckdb` on an empty filesystem. -/
theorem c5_makedirs_amended_witness :
    (strip "duckdb" ≠ "" ∧
      (FsState.mk (fun _ => false) (fun _ => none)).ex "duckdb" = false) ∧
    (exportCell Mode.interactive "temp.json" (some "duckdb") Json.null Json.null
        (FsState.mk (fun _ => false) (fun _ => none)) =
      [FsOp.makedirs "duckdb",
       FsOp.write ("duckdb" ++ "/keywords.json") Json.null,
       FsOp.write ("duckdb" ++ "/functions.json") Json.null] ∧
     ∀ (a2 : String) (fv : Option String) (kw2 fn2 : Json) (fs2 : FsState),
       exportCell Mode.script a2 fv kw2 fn2 fs2 =
         [FsOp.write a2 kw2, FsOp.write (a2 ++ "/functions.json") fn2]) :=
  ⟨⟨by decide, rfl⟩,
    c5_makedirs_amended "temp.json" "duckdb" Json.null Json.null
      (FsState.mk (fun _ => false) (fun _ => none)) (by decide) rfl⟩

/-- Claim C6: each exported aggregate string — the `keywords` field and
the `types` field of the `df` row — is the space-join (`aggStr`) of its
`sortDedup` list, and those lists are strictly ascending, hence sorted
with no duplicate entries. -/
theorem c6_sorted_dedup_strings (pats : List (List Char)) (c : CatalogState)
    (v t : String) :
    (dfRow pats c v t).keywords = aggStr (keptKeywords pats c) ∧
    (dfRow pats c v t).types = aggStr c.duckdb_types ∧
    List.Pairwise (· < ·) (sortDedup (keptKeywords pats c)) ∧
    List.Pairwise (· < ·) (sortDedup c.duckdb_types) :=
  ⟨rfl, rfl, pairwise_sortDedup _, pairwise_sortDedup _⟩

/-- Claim C7, counterexample.  With two overload groups whose `examples`
lists are `["a"]` and `["b"]`, the recorded example is `b` — the head
of the `MAX` (list-lexicographically greatest) list — not the first
example `a` of the first overload group that the claim describes. -/
theorem c7_max_examples_cex :
    aggExample [["a"], ["b"]] = some "b" ∧
    specFirstExample [["a"], ["b"]] = some "a" ∧
    aggExample [["a"], ["b"]] ≠ specFirstExample [["a"], ["b"]] := by
  have h : ("a" : String) < "b" := by rw [String.lt_iff_toList_lt]; decide
  have hl : listLt ["a"] ["b"] = true := by rw [listLt_cons, if_pos h]
  have h1 : aggExample [["a"], ["b"]] = some "b" := by
    show (if listLt ["a"] ["b"] = true then (["b"] : List String) else ["a"]).head? =
      some "b"
    rw [hl]
    simp
  refine ⟨h1, rfl, ?_⟩
  rw [h1, show specFirstExample [["a"], ["b"]] = some "a" from rfl]
  decide

/-- Claim C7, amended: for every nonempty overload group, `MAX` picks a
greatest `examples` list among the group (a member no other list
exceeds), and the recorded `example` is that list's first element, or
null when it is empty. -/
theorem c7_max_examples_amended (gs : List (List String)) (hne : gs ≠ []) :
    (maxExamples gs).isSome = true ∧
    ∀ m, maxExamples gs = some m →
      m ∈ gs ∧ (∀ l ∈ gs, listLt m l = false) ∧ aggExample gs = m.head? := by
  cases gs with
  | nil => exact absurd rfl hne
  | cons g gs =>
    refine ⟨rfl, ?_⟩
    intro m hm
    have hm2 : gs.foldl (fun acc l => if listLt acc l then l else acc) g = m :=
      Option.some.inj hm
    constructor
    · rw [hm2.symm]
      exact foldMax_mem gs g
    constructor
    · intro l hl
      rw [hm2.symm]
      exact foldMax_not_lt gs g l hl
    · show (maxExamples (g :: gs)).bind List.head? = m.head?
      rw [hm]
      rfl

/-- Claim C7 witness: the amended theorem applied to the one-overload
group `[["a"]]`. -/
theorem c7_max_examples_amended_witness :
    ([["a"]] : List (List String)) ≠ [] ∧
    ((maxExamples [["a"]]).isSome = true ∧
      ∀ m, maxExamples [["a"]] = some m →
        m ∈ ([["a"]] : List (List String)) ∧
          (∀ l ∈ ([["a"]] : List (List String)), listLt m l = false) ∧
          aggExample [["a"]] = m.head?) :=
  ⟨by decide, c7_max_examples_amended [["a"]] (by decide)⟩

/-- Claim C8, counterexample.  Polars `write_json` is row-oriented: the
keywords document is a one-element array wrapping the row object, not a
flat object. -/
theorem c8_flat_object_cex :
    write_to_file (DfRow.mk "v" "d" none none none) =
      Json.arr [Json.obj
        [("duckdb_version", Json.str "v"), ("last_updated", Json.str "d"),
         ("keywords", Json.null), ("types", Json.null)]] ∧
    Json.isObj (write_to_file (DfRow.mk "v" "d" none none none)) = false :=
  ⟨rfl, rfl⟩

/-- Claim C8, amended: the exported keywords document is a one-element
array whose single row object has exactly the fields `duckdb_version`,
`last_updated`, `keywords` and `types`, in that order: the transient
`builtin` column is excluded and every other column is carried over
unaltered. -/
theorem c8_export_fields_amended (r : DfRow) :
    write_to_file r = Json.arr [Json.obj
      [("duckdb_version", Json.str r.duckdb_version),
       ("last_updated", Json.str r.last_updated),
       ("keywords", optStr r.keywords),
       ("types", optStr r.types)]] := rfl

/-- Claim C9: two script-mode runs with the same catalog state,
exclusion list, function rows and save path produce the same
functions document, the same keywords document up to the
`last_updated` timestamp field, and this holds whatever the prior
filesystem contents were — each run replaces the target files
wholesale (no append or merge) and touches no other path. -/
theorem c9_deterministic_overwrite (exc : List String) (c : CatalogState)
    (fnRows : List FnRow) (v d1 d2 sp : String) (fs1 fs2 : FsState)
    (hp : (dfPats exc).isSome = true) :
    ((runScript exc c fnRows v d1 sp fs1).map fun s =>
        s.files (sp ++ "/functions.json")) =
      ((runScript exc c fnRows v d2 sp fs2).map fun s =>
        s.files (sp ++ "/functions.json")) ∧
    ((runScript exc c fnRows v d1 sp fs1).map fun s =>
        (s.files sp).map fun j => eraseFieldTop j "last_updated") =
      ((runScript exc c fnRows v d2 sp fs2).map fun s =>
        (s.files sp).map fun j => eraseFieldTop j "last_updated") ∧
    ∀ q : String, q ≠ sp → q ≠ sp ++ "/functions.json" →
      ((runScript exc c fnRows v d1 sp fs1).map fun s => s.files q) =
        some (fs1.files q) := by
  obtain ⟨pats, hpats⟩ := Option.isSome_iff_exists.mp hp
  have hrun : ∀ (d : String) (fsX : FsState),
      runScript exc c fnRows v d sp fsX =
        some (applyOps
          [FsOp.write sp (write_to_file (dfRow pats c v d)),
           FsOp.write (sp ++ "/functions.json") (fnDictJson (fn_dict fnRows))] fsX) := by
    intro d fsX
    rw [runScript, dfQuery, hpats]
    rfl
  have hfiles : ∀ (d : String) (fsX : FsState) (q : String),
      (applyOps
        [FsOp.write sp (write_to_file (dfRow pats c v d)),
         FsOp.write (sp ++ "/functions.json") (fnDictJson (fn_dict fnRows))] fsX).files q =
        if q = sp ++ "/functions.json" then some (fnDictJson (fn_dict fnRows))
        else if q = sp then some (write_to_file (dfRow pats c v d))
        else fsX.files q := fun d fsX q => rfl
  have hsp : sp ≠ sp ++ "/functions.json" :=
    ne_append_of_ne_empty sp "/functions.json" (by decide)
  have herase : ∀ d : String,
      eraseFieldTop (write_to_file (dfRow pats c v d)) "last_updated" =
        Json.arr [Json.obj
          [("duckdb_version", Json.str v),
           ("keywords", optStr (aggStr (keptKeywords pats c))),
           ("types", optStr (aggStr c.duckdb_types))]] := fun d => rfl
  refine ⟨?_, ?_, ?_⟩
  · rw [hrun d1 fs1, hrun d2 fs2]
    simp [hfiles d1 fs1, hfiles d2 fs2]
  · rw [hrun d1 fs1, hrun d2 fs2]
    simp only [Option.map_some']
    rw [hfiles d1 fs1 sp, hfiles d2 fs2 sp, if_neg hsp, if_neg hsp,
      if_pos rfl, if_pos rfl]
    simp only [Option.map_some']
    rw [herase d1, herase d2]
  · intro q hq1 hq2
    rw [hrun d1 fs1]
    simp only [Option.map_some']
    rw [hfiles d1 fs1 q, if_neg hq2, if_neg hq1]

/-- Claim C9 witness: the theorem applied to exclusion list `["x"]`, an
empty catalog, two different dates and two different prior filesystem
states. -/
theorem c9_deterministic_overwrite_witness :
    (dfPats ["x"]).isSome = true ∧
    (((runScript ["x"] ⟨[], [], [], []⟩ [] "1.0" "d1" "out"
          (FsState.mk (fun _ => false) (fun _ => none))).map fun s =>
        s.files ("out" ++ "/functions.json")) =
      ((runScript ["x"] ⟨[], [], [], []⟩ [] "1.0" "d2" "out"
          (FsState.mk (fun _ => true) (fun _ => some Json.null))).map fun s =>
        s.files ("out" ++ "/functions.json")) ∧
    ((runScript ["x"] ⟨[], [], [], []⟩ [] "1.0" "d1" "out"
          (FsState.mk (fun _ => false) (fun _ => none))).map fun s =>
        (s.files "out").map fun j => eraseFieldTop j "last_updated") =
      ((runScript ["x"] ⟨[], [], [], []⟩ [] "1.0" "d2" "out"
          (FsState.mk (fun _ => true) (fun _ => some Json.null))).map fun s =>
        (s.files "out").map fun j => eraseFieldTop j "last_updated") ∧
    ∀ q : String, q ≠ "out" → q ≠ "out" ++ "/functions.json" →
      ((runScript ["x"] ⟨[], [], [], []⟩ [] "1.0" "d1" "out"
          (FsState.mk (fun _ => false) (fun _ => none))).map fun s => s.files q) =
        some ((FsState.mk (fun _ => false) (fun _ => none)).files q)) :=
  ⟨by decide,
    c9_deterministic_overwrite ["x"] ⟨[], [], [], []⟩ [] "1.0" "d1" "d2" "out"
      (FsState.mk (fun _ => false) (fun _ => none))
      (FsState.mk (fun _ => true) (fun _ => some Json.null)) (by decide)⟩

/-- Claim C10: in interactive mode, when the submitted folder value is
`None` or blank after stripping whitespace, the export cell issues no
filesystem operation at all: nothing is written, no directory is
created, and the filesystem state is unchanged. -/
theorem c10_blank_form_no_effect (a : String) (fv : Option String)
    (kw fn : Json) (fs : FsState)
    (h : strip (fv.getD "") = "") :
    exportCell Mode.interactive a fv kw fn fs = [] ∧
    applyOps (exportCell Mode.interactive a fv kw fn fs) fs = fs := by
  have he : exportCell Mode.interactive a fv kw fn fs = [] := by
    cases fv with
    | none => rfl
    | some sp =>
      have h2 : strip sp = "" := h
      show (if strip sp = "" then [] else _) = []
      rw [if_pos h2]
  refine ⟨he, ?_⟩
  rw [he]
  rfl

/-- Claim C10 witness: a whitespace-only form value on a concrete
filesystem. -/
theorem c10_blank_form_no_effect_witness :
    strip ((some "  ").getD "") = "" ∧
    (exportCell Mode.interactive "temp.json" (some "  ") Json.null Json.null
        (FsState.mk (fun _ => false) (fun _ => none)) = [] ∧
      applyOps
        (exportCell Mode.interactive "temp.json" (some "  ") Json.null Json.null
          (FsState.mk (fun _ => false) (fun _ => none)))
        (FsState.mk (fun _ => false) (fun _ => none)) =
        FsState.mk (fun _ => false) (fun _ => none)) :=
  ⟨by decide,
    c10_blank_form_no_effect "temp.json" (some "  ") Json.null Json.null
      (FsState.mk (fun _ => false) (fun _ => none)) (by decide)⟩
